import Mathlib

/-!
Verification of the trade-journal application's CSV normalization and
trade-store logic (source: the React `TradeViewer` component).

Modelling conventions for the shallow embedding:
* JavaScript strings are modelled as `List Char` (`Str`); all string
  operations used by the source (`split`, `trim`, `toLowerCase`,
  `startsWith`, `endsWith`, `substring`, `replace` of fixed character
  classes, `includes`) are defined below on `Str`.
* JavaScript numbers are modelled as `Option ℚ` (`JNum`): `none` plays the
  role of `NaN`, propagating through arithmetic, and every comparison
  involving `NaN` is `false`, exactly as in JS.  (`±Infinity` and `-0`
  never arise on the inputs the code handles and are not modelled.)
* `parseFloat` is modelled on decimal literals (optional sign, digits,
  optional fraction, longest prefix, leading whitespace skipped); the JS
  builtin additionally accepts exponents and `Infinity`, which never occur
  in the CSV fields this program consumes.
* `new Date(string)` is modelled on the ISO-like subset
  `YYYY-MM-DD[ |T]HH:MM:SS` (UTC), returning milliseconds since the epoch;
  any other string is an invalid date (`none`), matching the `isNaN` check
  in the source.  `new Date()` (the current time) is passed explicitly as
  an integer parameter `now`.
* `Array.prototype.sort` with the source's comparator is stable and sorts
  by the comparator; it is modelled by a stable insertion sort, which has
  the same observable behaviour for a total comparator.
-/

attribute [local semireducible] Rat.add Rat.mul Rat.sub Rat.inv

set_option maxRecDepth 40000

namespace TradeJournal

/-- JavaScript strings, modelled as lists of characters. -/
abbrev Str := List Char

/-- JavaScript numbers: `none` models `NaN`, `some q` a (finite) number. -/
abbrev JNum := Option ℚ

/-- JS `<` : any comparison with `NaN` is false. -/
def jlt : JNum → JNum → Bool
  | some a, some b => decide (a < b)
  | _, _ => false

/-- JS `<=` : any comparison with `NaN` is false. -/
def jle : JNum → JNum → Bool
  | some a, some b => decide (a ≤ b)
  | _, _ => false

/-- JS `>` (`a > b` is `b < a`). -/
def jgt (a b : JNum) : Bool := jlt b a

/-- JS subtraction; `NaN` propagates. -/
def jsub : JNum → JNum → JNum
  | some a, some b => some (a - b)
  | _, _ => none

/-- JS multiplication; `NaN` propagates. -/
def jmul : JNum → JNum → JNum
  | some a, some b => some (a * b)
  | _, _ => none

/-- JS unary minus; `-NaN = NaN`. -/
def jneg : JNum → JNum := Option.map (fun x => -x)

/-- JS `Math.abs`; `abs NaN = NaN`. -/
def jabs : JNum → JNum := Option.map (fun x => |x|)

/-- Whitespace characters recognized by JS `trim` / `parseFloat` on the
inputs at hand. -/
def isWS (c : Char) : Bool := c = ' ' || c = '\t' || c = '\n' || c = '\r'

/-- JS `String.prototype.trim`. -/
def trimL (l : Str) : Str :=
  ((l.dropWhile isWS).reverse.dropWhile isWS).reverse

/-- List version of JS `String.prototype.startsWith`. -/
def isPrefixL : Str → Str → Bool
  | [], _ => true
  | _ :: _, [] => false
  | a :: as, b :: bs => a == b && isPrefixL as bs

/-- List version of JS `String.prototype.endsWith`. -/
def endsWithL (suf l : Str) : Bool := isPrefixL suf.reverse l.reverse

/-- JS `String.prototype.includes`: `containsSub sub l` is true when `sub`
occurs contiguously inside `l`. -/
def containsSub (sub : Str) : Str → Bool
  | [] => isPrefixL sub []
  | c :: rest => isPrefixL sub (c :: rest) || containsSub sub rest

/-- JS `String.prototype.toLowerCase` (ASCII headers). -/
def toLowerL (l : Str) : Str := l.map Char.toLower

/-- JS `String.prototype.toUpperCase` (ASCII symbols). -/
def toUpperL (l : Str) : Str := l.map Char.toUpper

/-- Drop the last `n` characters: `l.substring(0, l.length - n)`. -/
def dropRightL (n : Nat) (l : Str) : Str := l.take (l.length - n)

/-- Split a string at every separator character satisfying `p`, keeping
empty fields, as JS `String.prototype.split` does with a single-character
alternation regex. -/
def splitBy (p : Char → Bool) (l : Str) : List Str :=
  l.foldr
    (fun c acc =>
      match acc with
      | [] => [[c]]
      | f :: rest => if p c then [] :: f :: rest else (c :: f) :: rest)
    [[]]

/-- The source's `split(/,|\t/)` field tokenizer. -/
def splitFields (l : Str) : List Str := splitBy (fun c => c = ',' || c = '\t') l

/-- The source's `replace(/[$£€]/g, '')`. -/
def stripCur (l : Str) : Str := l.filter (fun c => !(c = '$' || c = '£' || c = '€'))

/-- The source's `replace(/[$£€,]/g, '')`. -/
def stripCurComma (l : Str) : Str :=
  l.filter (fun c => !(c = '$' || c = '£' || c = '€' || c = ','))

/-- Numeric value of a digit string. -/
def natValQ (l : Str) : ℚ := l.foldl (fun a c => a * 10 + ((c.toNat - 48 : ℕ) : ℚ)) 0

/-- Value of a fraction-digit string (digits after the decimal point). -/
def fracValQ (l : Str) : ℚ := natValQ l / (10 ^ l.length)

/-- Model of JS `parseFloat` on decimal literals: skip leading whitespace,
optional sign, longest run of digits, optional `.` and fraction digits;
`NaN` (`none`) when no digit is found.  Trailing garbage is ignored, as in
JS. -/
def parseFloatL (l0 : Str) : JNum :=
  let l1 := l0.dropWhile isWS
  let sgn : ℚ := match l1 with
    | '-' :: _ => -1
    | _ => 1
  let l2 : Str := match l1 with
    | '-' :: r => r
    | '+' :: r => r
    | _ => l1
  let ip := l2.takeWhile Char.isDigit
  let r2 := l2.dropWhile Char.isDigit
  let fp : Str := match r2 with
    | '.' :: r => r.takeWhile Char.isDigit
    | _ => []
  if ip = [] ∧ fp = [] then none
  else some (sgn * (natValQ ip + fracValQ fp))

/-- The P/L field parser of `parseCSV` (source lines 157–202): the layered
fallback over the trimmed P/L string, returning the parsed value (`NaN`
possible), the `originalPnlString`, and `shouldDisplayAsNegative`. -/
def parsePnl (s : Str) : JNum × Str × Bool :=
  if isPrefixL ('$' :: '(' :: []) s ∧ endsWithL [')'] s then
    -- `$(…)` case: `numericPart = s.substring(2, s.length - 1)`
    let numericPart := dropRightL 1 (s.drop 2)
    (jneg (parseFloatL numericPart), '-' :: '$' :: numericPart, true)
  else if isPrefixL ['('] s ∧ endsWithL [')'] s then
    -- generic `(…)` case
    let v := dropRightL 1 (s.drop 1)
    let clean := trimL (stripCurComma v)
    (jneg (jabs (parseFloatL clean)), '-' :: '$' :: stripCur v, true)
  else if isPrefixL ['-'] s then
    (parseFloatL (trimL (stripCurComma s)), s, true)
  else
    (parseFloatL (trimL (stripCurComma s)), s, false)

/-- `XAUUSD_MULTIPLIER` (source line 10). -/
def XAUUSD_MULTIPLIER : ℚ := 100

/-- The direction used by the price-based P/L fallback (source lines
206/211): `buyPrice > sellPrice ? -1 : 1`.  With a `NaN` price the JS
comparison is false, so the direction is `1`. -/
def fallbackDirection (buy sell : JNum) : ℚ := if jgt buy sell then -1 else 1

/-- The price-based P/L fallback (source lines 206–207):
`direction * (sellPrice - buyPrice) * quantity * XAUUSD_MULTIPLIER`. -/
def fallbackPnl (buy sell qty : JNum) : JNum :=
  jmul (jmul (jmul (some (fallbackDirection buy sell)) (jsub sell buy)) qty)
    (some XAUUSD_MULTIPLIER)

/-- The complete per-row P/L computation: the layered parse, then the
price fallback when the parsed value `isNaN` (source lines 204–208). -/
def rowPnl (s : Str) (buy sell qty : JNum) : JNum :=
  if (parsePnl s).1.isNone then fallbackPnl buy sell qty else (parsePnl s).1

/-- The trade-direction heuristic (source line 229):
`buyPrice <= sellPrice ? "Long" : "Short"`.  With a `NaN` price the JS
comparison is false, giving `"Short"`. -/
def tradeDirection (buy sell : JNum) : Str :=
  if jle buy sell then "Long".data else "Short".data

/-- Numeric value of two digit characters. -/
def twoDigits (a b : Char) : Nat := (a.toNat - 48) * 10 + (b.toNat - 48)

/-- Leap-year test of the Gregorian calendar. -/
def isLeap (y : Int) : Bool := (y % 4 = 0 ∧ y % 100 ≠ 0) ∨ y % 400 = 0

/-- Days in a month of the Gregorian calendar. -/
def daysInMonth (y : Int) (m : Nat) : Nat :=
  if m = 2 then (if isLeap y then 29 else 28)
  else if m = 4 ∨ m = 6 ∨ m = 9 ∨ m = 11 then 30
  else 31

/-- Days between the civil date `y-m-d` and 1970-01-01 (standard
days-from-civil computation, floor division throughout). -/
def daysFromCivil (y : Int) (m d : Nat) : Int :=
  let y' : Int := y - (if m ≤ 2 then 1 else 0)
  let era : Int := Int.fdiv y' 400
  let yoe : Int := y' - era * 400
  let mp : Int := ((m : Int) + 9) % 12
  let doy : Int := Int.fdiv (153 * mp + 2) 5 + (d : Int) - 1
  let doe : Int := yoe * 365 + Int.fdiv yoe 4 - Int.fdiv yoe 100 + doy
  era * 146097 + doe - 719468

/-- Milliseconds since the epoch of `y-m-d h:mi:s` (UTC). -/
def civilMs (y : Int) (m d h mi s : Nat) : Int :=
  daysFromCivil y m d * 86400000 + ((h * 3600 + mi * 60 + s : Nat) : Int) * 1000

/-- Model of `new Date(string)` on the ISO-like subset
`YYYY-MM-DD[ |T]HH:MM:SS` (or the bare date), in UTC: `none` is an invalid
date (the source's `isNaN(d.getTime())`).  Any other shape of string the
broker CSV could carry is treated as invalid. -/
def parseDate (l : Str) : Option Int :=
  match l with
  | y1 :: y2 :: y3 :: y4 :: '-' :: m1 :: m2 :: '-' :: d1 :: d2 :: rest =>
    if (y1.isDigit && y2.isDigit && y3.isDigit && y4.isDigit &&
        m1.isDigit && m2.isDigit && d1.isDigit && d2.isDigit) then
      let y : Int := ((twoDigits y1 y2) * 100 + twoDigits y3 y4 : Nat)
      let m := twoDigits m1 m2
      let d := twoDigits d1 d2
      if 1 ≤ m ∧ m ≤ 12 ∧ 1 ≤ d ∧ d ≤ daysInMonth y m then
        match rest with
        | [] => some (civilMs y m d 0 0 0)
        | sep :: h1 :: h2 :: ':' :: n1 :: n2 :: ':' :: s1 :: s2 :: [] =>
          if (sep = ' ' || sep = 'T') && h1.isDigit && h2.isDigit &&
              n1.isDigit && n2.isDigit && s1.isDigit && s2.isDigit &&
              twoDigits h1 h2 < 24 && twoDigits n1 n2 < 60 && twoDigits s1 s2 < 60 then
            some (civilMs y m d (twoDigits h1 h2) (twoDigits n1 n2) (twoDigits s1 s2))
          else none
        | _ => none
      else none
    else none
  | _ => none

/-- Insert a key into a JS object's key list: a later assignment to an
existing key keeps the key's original position, a new key is appended
(JS objects enumerate non-integer-like string keys in insertion order;
header names are non-numeric). -/
def insertKey (ks : List Str) (k : Str) : List Str :=
  if k ∈ ks then ks else ks ++ [k]

/-- The ordered key list of `columnMap` (source lines 68–71): lower-cased
headers, first occurrence wins the position. -/
def objKeys (headers : List Str) : List Str :=
  headers.foldl (fun ks h => insertKey ks (toLowerL h)) []

/-- The required logical columns (source lines 74–76). -/
def requiredColumns : List Str :=
  ["symbol".data, "buyprice".data, "sellprice".data, "qty".data,
   "boughttimestamp".data, "soldtimestamp".data, "pnl".data]

/-- The missing-columns filter (source lines 78–80). -/
def missingColumns (headers : List Str) : List Str :=
  requiredColumns.filter
    (fun col => !(objKeys headers).any (fun key => containsSub (toLowerL col) key))

/-- JS `Array.prototype.findIndex`: index of the first element satisfying
`p`, `-1` when there is none. -/
def findIndexL (p : Str → Bool) : List Str → Int
  | [] => -1
  | a :: as =>
    if p a then 0
    else if findIndexL p as = -1 then -1 else findIndexL p as + 1

/-- `getColumnIndex` (source lines 87–89): `findIndex` over the key list of
`columnMap`, `-1` when no key contains the name. -/
def getColumnIndex (headers : List Str) (base : Str) : Int :=
  findIndexL (fun key => containsSub (toLowerL base) key) (objKeys headers)

/-- The resolved column indices (source lines 91–98).  The seven required
indices are non-negative whenever the missing-columns check passed, so they
are stored as `Nat`; `durationCol` keeps the JS `-1` convention. -/
structure ColIdx where
  symbolCol : Nat
  buyPriceCol : Nat
  sellPriceCol : Nat
  qtyCol : Nat
  buyTimeCol : Nat
  sellTimeCol : Nat
  pnlCol : Nat
  durationCol : Int
  deriving DecidableEq

/-- Resolve all column indices from the headers (source lines 91–98). -/
def resolveCols (headers : List Str) : ColIdx where
  symbolCol := (getColumnIndex headers "symbol".data).toNat
  buyPriceCol := (getColumnIndex headers "buyprice".data).toNat
  sellPriceCol := (getColumnIndex headers "sellprice".data).toNat
  qtyCol := (getColumnIndex headers "qty".data).toNat
  buyTimeCol := (getColumnIndex headers "boughttimestamp".data).toNat
  sellTimeCol := (getColumnIndex headers "soldtimestamp".data).toNat
  pnlCol := (getColumnIndex headers "pnl".data).toNat
  durationCol := getColumnIndex headers "duration".data

/-- The highest required column index (source line 126's
`Math.max(symbolCol, …, pnlCol)`). -/
def maxNeeded (c : ColIdx) : Nat :=
  max c.symbolCol (max c.buyPriceCol (max c.sellPriceCol (max c.qtyCol
    (max c.buyTimeCol (max c.sellTimeCol c.pnlCol)))))

/-- The normalized trade record (source lines 231–250).  The purely
presentational `entryNY`, `exitNY` and `description` fields (locale /
template formatting of the same data) are not modelled. -/
structure Trade where
  id : Nat
  instrument : Str
  entryTime : Int
  exitTime : Int
  quantity : JNum
  entryPrice : JNum
  exitPrice : JNum
  profitLoss : JNum
  originalPnlString : Str
  shouldDisplayAsNegative : Bool
  tradeType : Str
  isWinning : Bool
  exitReason : Str
  duration : Str
  durationMs : Int
  deriving DecidableEq

/-- The derived duration string (source lines 220–225): minutes are
`Math.floor(ms / 60000)` and the `h`/`m` split uses JS `/` with `Math.floor`
and `%` (truncated remainder). -/
def durationString (ms : Int) : Str :=
  let mins := Int.fdiv ms 60000
  if 60 ≤ mins then
    (toString (Int.fdiv mins 60)).data ++ ('h' :: ' ' :: (toString (Int.tmod mins 60)).data)
      ++ ['m']
  else (toString mins).data ++ ['m']

/-- One iteration of the row loop (source lines 115–258): `none` when the
row is skipped (blank line, or fewer fields than the highest required
column index + 1), otherwise the parsed trade.  `now` models `new Date()`.
Nothing else in the loop body can throw, so the per-row `try`/`catch`
produces no other skips. -/
def parseRow (now : Int) (c : ColIdx) (i : Nat) (line : Str) : Option Trade :=
  if trimL line = [] then none
  else
    let fields := (splitFields line).map trimL
    if fields.length < maxNeeded c + 1 then none
    else
      let symbol := fields.getD c.symbolCol []
      let buyPrice := parseFloatL (fields.getD c.buyPriceCol [])
      let sellPrice := parseFloatL (fields.getD c.sellPriceCol [])
      let quantity := parseFloatL (fields.getD c.qtyCol [])
      let times : Int × Int :=
        match parseDate (fields.getD c.buyTimeCol []),
            parseDate (fields.getD c.sellTimeCol []) with
        | some bt, some st => (bt, st)
        | _, _ => (now, now + 3600000)
      let bt := times.1
      let st := times.2
      let pnlStr := trimL (fields.getD c.pnlCol [])
      let pr := parsePnl pnlStr
      let duration :=
        if 0 ≤ c.durationCol ∧ c.durationCol < (fields.length : Int) then
          fields.getD c.durationCol.toNat []
        else durationString (st - bt)
      some
        { id := i
          instrument := symbol
          entryTime := bt
          exitTime := st
          quantity := quantity
          entryPrice := buyPrice
          exitPrice := sellPrice
          profitLoss := rowPnl pnlStr buyPrice sellPrice quantity
          originalPnlString := pr.2.1
          shouldDisplayAsNegative := pr.2.2
          tradeType := tradeDirection buyPrice sellPrice
          isWinning := !pr.2.2
          exitReason := "Market Exit".data
          duration := duration
          durationMs := st - bt }

/-- The data-row loop (source lines 114–258), with `i` the current line
index (the first data row has index 1, which also becomes the trade id). -/
def rowsLoop (now : Int) (c : ColIdx) : Nat → List Str → List Trade
  | _, [] => []
  | i, l :: ls =>
    match parseRow now c i l with
    | some t => t :: rowsLoop now c (i + 1) ls
    | none => rowsLoop now c (i + 1) ls

/-- The lines of the input: `result.trim().split("\n")` (source line 58). -/
def linesOf (input : Str) : List Str := splitBy (fun ch => ch = '\n') (trimL input)

/-- The header cells: `lines[0].split(/,|\t/).map(h => h.trim())` (line 62). -/
def headersOf (input : Str) : List Str := (splitFields ((linesOf input).headD [])).map trimL

/-- The unsorted trade list an input produces (the `trades` array right
before the sort on source line 265). -/
def rawTrades (now : Int) (input : Str) : List Trade :=
  rowsLoop now (resolveCols (headersOf input)) 1 ((linesOf input).drop 1)

/-- Stable insertion (descending by `entryTime`): an element keeps its
place in front of every element with an equal key.  `trades.sort((a, b) =>
new Date(b.entryTime) - new Date(a.entryTime))` (source line 265) is a
stable sort by this comparator (`entryTime` round-trips through
`toISOString`), so any stable sorting algorithm models it exactly. -/
def insertT (x : Trade) : List Trade → List Trade
  | [] => [x]
  | y :: ys => if x.entryTime < y.entryTime then y :: insertT x ys else x :: y :: ys

/-- Stable sort of the trades, most recent `entryTime` first. -/
def sortTrades : List Trade → List Trade
  | [] => []
  | x :: xs => insertT x (sortTrades xs)

/-- The whole CSV normalizer `parseCSV` (source lines 54–278), minus the
file reading and the state updates: input text to either an error message
(the source's thrown `Error`) or the sorted trade list. -/
def parseCSV (now : Int) (input : Str) : Except String (List Trade) :=
  let lines := linesOf input
  if lines.length < 2 then .error "CSV has no data rows."
  else
    let headers := headersOf input
    if missingColumns headers ≠ [] then .error "Missing required columns"
    else
      let trades := rawTrades now input
      if trades = [] then .error "No valid trades found in CSV"
      else .ok (sortTrades trades)

/-- The three image slots of one trade (source: `[null, null, null]`,
line 341), an image being a data-URL string. -/
structure ImageSlots where
  s0 : Option String
  s1 : Option String
  s2 : Option String
  deriving DecidableEq

/-- The empty slot array `[null, null, null]`. -/
def ImageSlots.empty : ImageSlots := ⟨none, none, none⟩

/-- Read one slot. -/
def ImageSlots.get : ImageSlots → Fin 3 → Option String
  | a, ⟨0, _⟩ => a.s0
  | a, ⟨1, _⟩ => a.s1
  | a, ⟨2, _⟩ => a.s2

/-- Write one slot (`updatedImages[slot] = v`). -/
def ImageSlots.set (a : ImageSlots) (slot : Fin 3) (v : Option String) : ImageSlots :=
  match slot with
  | ⟨0, _⟩ => { a with s0 := v }
  | ⟨1, _⟩ => { a with s1 := v }
  | ⟨2, _⟩ => { a with s2 := v }

/-- `updatedImages.every(img => img === null)` (source line 390). -/
def ImageSlots.allNull (a : ImageSlots) : Bool :=
  a.s0 = none ∧ a.s1 = none ∧ a.s2 = none

/-- The `tradeImages` state object: trade id to slot array; `none` means the
object does not contain the key. -/
def ImageMap := Nat → Option ImageSlots

/-- The image-attach state update of `handleImageUpload` (source lines
340–348): create the 3-slot array if the key is absent, set the slot to the
uploaded image. -/
def attachImage (m : ImageMap) (tradeId : Nat) (slot : Fin 3) (img : String) : ImageMap :=
  fun k =>
    if k = tradeId then some (((m tradeId).getD ImageSlots.empty).set slot (some img))
    else m k

/-- `removeImage` (source lines 382–401): clear the slot; delete the key
entirely when all three slots become null. -/
def removeImage (m : ImageMap) (tradeId : Nat) (slot : Fin 3) : ImageMap :=
  match m tradeId with
  | none => m
  | some arr =>
    let arr' := arr.set slot none
    if arr'.allNull then fun k => if k = tradeId then none else m k
    else fun k => if k = tradeId then some arr' else m k

/-- A sequence of image uploads to one trade (repeated `handleImageUpload`
state updates): each pair is a slot and the uploaded image. -/
def attachList (m : ImageMap) (tradeId : Nat) (L : List (Fin 3 × String)) : ImageMap :=
  L.foldl (fun mm p => attachImage mm tradeId p.1 p.2) m

/-- A sequence of image removals from one trade (repeated `removeImage`
state updates). -/
def detachList (m : ImageMap) (tradeId : Nat) (slots : List (Fin 3)) : ImageMap :=
  slots.foldl (fun mm s => removeImage mm tradeId s) m

/-- The XAUUSD predicate of the debug P/L recalculation (source line 810):
`trade.instrument.toUpperCase().includes('XAUUSD')`. -/
def matchesXAUUSD (t : Trade) : Bool := containsSub "XAUUSD".data (toUpperL t.instrument)

/-- The recomputed P/L of the debug override (source lines 811–813):
`priceDiff * mult * multiplier * quantity` with
`mult = tradeType === 'Long' ? 1 : -1`. -/
def overridePnlValue (t : Trade) (multiplier : ℚ) : JNum :=
  jmul (jmul (jmul (jsub t.exitPrice t.entryPrice)
    (some (if t.tradeType = "Long".data then 1 else -1))) (some multiplier)) t.quantity

/-- The debug P/L override (source lines 809–818): map over the trade list,
replacing `profitLoss` of every XAUUSD trade, leaving every other trade
untouched.  (The surrounding `if (window.XAUUSD_DEBUG_MULTIPLIER)` only
checks that a debug multiplier has been entered.) -/
def overridePnl (trades : List Trade) (multiplier : ℚ) : List Trade :=
  trades.map (fun t =>
    if matchesXAUUSD t then { t with profitLoss := overridePnlValue t multiplier } else t)

/-- A concrete XAUUSD trade used to instantiate the override theorem. -/
def c10trade : Trade where
  id := 1
  instrument := "XAUUSD".data
  entryTime := 0
  exitTime := 3600000
  quantity := some 1
  entryPrice := some 1900
  exitPrice := some 1905
  profitLoss := some 12
  originalPnlString := "$12.00".data
  shouldDisplayAsNegative := false
  tradeType := "Long".data
  isWinning := true
  exitReason := "Market Exit".data
  duration := "60m".data
  durationMs := 3600000

/-- Row survival: a data row produces a trade exactly when it is not blank
and has at least `maxNeeded + 1` fields (the only row-level skips of the
source's loop; every other row-level failure is repaired in place). -/
def survivesRow (c : ColIdx) (line : Str) : Bool :=
  if trimL line = [] then false
  else if ((splitFields line).map trimL).length < maxNeeded c + 1 then false
  else true

/-- The number of data rows that survive row-level recovery. -/
def survivingCount (input : Str) : Nat :=
  (((linesOf input).drop 1).filter (survivesRow (resolveCols (headersOf input)))).length

/-- Column indices of a plain seven-column layout, used to instantiate the
row-level theorems. -/
def c7cols : ColIdx where
  symbolCol := 0
  buyPriceCol := 1
  sellPriceCol := 2
  qtyCol := 3
  buyTimeCol := 4
  sellTimeCol := 5
  pnlCol := 6
  durationCol := -1

/-- A data row whose entry timestamp does not parse. -/
def c7line : Str := "XAUUSD,1900,1905,1,notatime,2024-01-02 03:00:00,$5".data

/-- A three-row CSV with two trades sharing an entry time, used to
instantiate the sortedness/stability theorem. -/
def c8input : Str :=
  ("symbol,buyprice,sellprice,qty,boughttimestamp,soldtimestamp,pnl\n" ++
   "XAUUSD,1,2,1,2024-01-02 10:00:00,2024-01-02 11:00:00,$1\n" ++
   "XAUUSD,3,4,1,2024-01-03 10:00:00,2024-01-03 11:00:00,$2\n" ++
   "XAUUSD,5,6,1,2024-01-02 10:00:00,2024-01-02 12:00:00,$3").data

/-- The trades that CSV normalizes to. -/
def c8trades : List Trade :=
  match parseCSV 0 c8input with
  | .ok ts => ts
  | .error _ => []

/-- A concrete header row exercising the resolution theorem: mixed casing
and the `pnl` column first. -/
def c4headers : List Str :=
  ["PnL", "Symbol", "BuyPrice", "SellPrice", "Qty", "BoughtTimestamp",
   "SoldTimestamp"].map String.data

/-! ### Helper lemmas -/

theorem dropRightL_append_last (l : Str) (c : Char) : dropRightL 1 (l ++ [c]) = l := by
  simp [dropRightL]

theorem endsWithL_append_last (l : Str) (c : Char) : endsWithL [c] (l ++ [c]) = true := by
  simp [endsWithL, isPrefixL]

theorem isPrefixL_single_iff (c : Char) (s : Str) :
    isPrefixL [c] s = true ↔ ∃ t, s = c :: t := by
  constructor
  · intro h
    match s with
    | [] => simp [isPrefixL] at h
    | a :: t =>
      simp [isPrefixL] at h
      exact ⟨t, by rw [h]⟩
  · rintro ⟨t, rfl⟩
    simp [isPrefixL]

/-! ### Claim theorems -/

/-- Claim C1: the P/L field string is parsed by a layered fallback in this
exact precedence: (a) `"$(…)"` gives minus the enclosed number and
`originalPnlString = "-$<number>"`; (b) otherwise `"(…)"` gives a negative
value after stripping currency symbols and commas from the enclosed text;
(c) otherwise a leading `-` parses negative as written after stripping
currency symbols and commas; (d) otherwise positive after stripping;
`shouldDisplayAsNegative` is set exactly in cases (a)–(c).  In particular
`"$(225.00)"` parses to `profitLoss = -225.00` and
`originalPnlString = "-$225.00"`. -/
theorem claim_C1_pnl_layered_parse :
    (∀ n : Str, parsePnl ("$(".data ++ n ++ ")".data) =
      (jneg (parseFloatL n), "-$".data ++ n, true))
  ∧ (∀ v : Str, parsePnl ("(".data ++ v ++ ")".data) =
      (jneg (jabs (parseFloatL (trimL (stripCurComma v)))), "-$".data ++ stripCur v, true))
  ∧ (∀ s : Str, isPrefixL ['-'] s = true →
      parsePnl s = (parseFloatL (trimL (stripCurComma s)), s, true))
  ∧ (∀ s : Str,
      ¬(isPrefixL "$(".data s = true ∧ endsWithL ")".data s = true) →
      ¬(isPrefixL "(".data s = true ∧ endsWithL ")".data s = true) →
      isPrefixL ['-'] s = false →
      parsePnl s = (parseFloatL (trimL (stripCurComma s)), s, false))
  ∧ parsePnl "$(225.00)".data = (some (-225), "-$225.00".data, true) := by
  refine ⟨?_, ?_, ?_, ?_, by decide⟩
  · intro n
    show parsePnl ('$' :: '(' :: (n ++ [')'])) = _
    have h1 : isPrefixL "$(".data ('$' :: '(' :: (n ++ [')'])) = true := by
      simp [isPrefixL]
    have h2 : endsWithL ")".data ('$' :: '(' :: (n ++ [')'])) = true :=
      endsWithL_append_last ('$' :: '(' :: n) ')'
    rw [parsePnl, if_pos ⟨h1, h2⟩]
    simp [dropRightL_append_last]
  · intro v
    show parsePnl ('(' :: (v ++ [')'])) = _
    have h0 : isPrefixL "$(".data ('(' :: (v ++ [')'])) = false := by
      simp [isPrefixL]
    have h1 : isPrefixL "(".data ('(' :: (v ++ [')'])) = true := by
      simp [isPrefixL]
    have h2 : endsWithL ")".data ('(' :: (v ++ [')'])) = true :=
      endsWithL_append_last ('(' :: v) ')'
    rw [parsePnl, if_neg (by simp [h0]), if_pos ⟨h1, h2⟩]
    simp [dropRightL_append_last]
  · intro s hs
    obtain ⟨t, rfl⟩ := (isPrefixL_single_iff '-' s).mp hs
    rw [parsePnl, if_neg (by simp [isPrefixL]), if_neg (by simp [isPrefixL]),
      if_pos (by simp [isPrefixL])]
  · intro s h1 h2 h3
    rw [parsePnl, if_neg h1, if_neg h2, if_neg (by simp [h3])]

/-- Witness for C1: the negative-sign case (c) at the concrete input
`"-$5"`. -/
theorem claim_C1_witness :
    parsePnl "-$5".data =
      (parseFloatL (trimL (stripCurComma "-$5".data)), "-$5".data, true) :=
  claim_C1_pnl_layered_parse.2.2.1 "-$5".data (by decide)

/-- Claim C2: a row whose P/L field does not parse as a number gets its
P/L recomputed from prices as
`direction * (exitPrice - entryPrice) * quantity * 100` with
`direction = -1` when `entryPrice > exitPrice` and `1` otherwise; in
particular non-numeric P/L with entry 1900, exit 1905, quantity 1 gives
500. -/
theorem claim_C2_pnl_price_fallback :
    (∀ (s : Str) (b e q : JNum), (parsePnl s).1 = none →
      rowPnl s b e q =
        jmul (jmul (jmul (some (if jgt b e then -1 else 1)) (jsub e b)) q) (some 100))
  ∧ rowPnl "garbage".data (some 1900) (some 1905) (some 1) = some 500 := by
  constructor
  · intro s b e q h
    rw [rowPnl, if_pos (by simp [h])]
    rfl
  · decide

/-- Witness for C2: the fallback formula instantiated at a concrete
non-numeric P/L string and the prices 1900/1905. -/
theorem claim_C2_witness :
    rowPnl "N/A".data (some 1900) (some 1905) (some 1) =
      jmul (jmul (jmul (some (if jgt (some (1900 : ℚ)) (some 1905) then -1 else 1))
        (jsub (some 1905) (some 1900))) (some 1)) (some 100) :=
  claim_C2_pnl_price_fallback.1 "N/A".data (some 1900) (some 1905) (some 1) (by decide)

/-- Claim C3 (implicit): a price-recomputed P/L — the normalization
fallback, or the debug override with non-negative multiplier applied to a
trade whose `tradeType` agrees with its prices (which holds for every
parsed row) — is never negative when the quantity is non-negative. -/
theorem claim_C3_recomputed_pnl_nonneg :
    (∀ (b e : JNum) (q x : ℚ), 0 ≤ q → fallbackPnl b e (some q) = some x → 0 ≤ x)
  ∧ (∀ (t : Trade) (m q x : ℚ),
      t.tradeType = tradeDirection t.entryPrice t.exitPrice →
      t.quantity = some q → 0 ≤ q → 0 ≤ m →
      overridePnlValue t m = some x → 0 ≤ x)
  ∧ (∀ (now : Int) (c : ColIdx) (i : Nat) (line : Str) (t : Trade),
      parseRow now c i line = some t →
      t.tradeType = tradeDirection t.entryPrice t.exitPrice) := by
  refine ⟨?_, ?_, ?_⟩
  · intro b e q x hq h
    match b, e with
    | none, none => simp [fallbackPnl, jsub, jmul] at h
    | none, some _ => simp [fallbackPnl, jsub, jmul] at h
    | some _, none => simp [fallbackPnl, jsub, jmul] at h
    | some b', some e' =>
      simp only [fallbackPnl, fallbackDirection, jgt, jlt, jsub, jmul,
        XAUUSD_MULTIPLIER, Option.some.injEq] at h
      by_cases hlt : e' < b'
      · rw [if_pos (by simpa using hlt)] at h
        subst h
        have : 0 ≤ (b' - e') * q := mul_nonneg (by linarith) hq
        nlinarith
      · rw [if_neg (by simpa using hlt)] at h
        subst h
        have : 0 ≤ (e' - b') * q := mul_nonneg (by linarith) hq
        nlinarith
  · intro t m q x htype hq hq0 hm h
    match hb : t.entryPrice, he : t.exitPrice with
    | none, none => rw [overridePnlValue, hb, he] at h; simp [jsub, jmul] at h
    | none, some _ => rw [overridePnlValue, hb, he] at h; simp [jsub, jmul] at h
    | some _, none => rw [overridePnlValue, hb, he] at h; simp [jsub, jmul] at h
    | some b', some e' =>
      rw [overridePnlValue, hb, he, hq] at h
      rw [htype, hb, he, tradeDirection] at h
      simp only [jsub, jmul, jle, Option.some.injEq] at h
      by_cases hle : b' ≤ e'
      · rw [if_pos (by simpa using hle)] at h
        subst h
        have : 0 ≤ (e' - b') * 1 * m := by
          have : 0 ≤ (e' - b') * 1 := by linarith
          exact mul_nonneg this hm
        exact mul_nonneg this hq0
      · rw [if_neg (by simpa using hle)] at h
        subst h
        have : 0 ≤ (e' - b') * (-1) * m := by
          have : 0 ≤ (e' - b') * (-1) := by linarith
          exact mul_nonneg this hm
        exact mul_nonneg this hq0
  · intro now c i line t h
    rw [parseRow] at h
    by_cases h1 : trimL line = []
    · rw [if_pos h1] at h; exact absurd h (by simp)
    · rw [if_neg h1] at h
      by_cases h2 : ((splitFields line).map trimL).length < maxNeeded c + 1
      · rw [if_pos h2] at h; exact absurd h (by simp)
      · rw [if_neg h2] at h
        simp only [Option.some.injEq] at h
        subst h
        rfl

/-- Witness for C3: the fallback P/L at prices 1910/1905 (a short-shaped
row) and quantity 2 is the non-negative 1000. -/
theorem claim_C3_witness : (0 : ℚ) ≤ 1000 :=
  claim_C3_recomputed_pnl_nonneg.1 (some 1910) (some 1905) 2 1000 (by decide) (by decide)

/-- Claim C6 (counterexample): the claim says `tradeType` is `Short`
exactly when the P/L fallback direction is `-1`; but on a row whose entry
price does not parse (`NaN`), the code's `buyPrice > sellPrice` is false
(direction `+1`) while `buyPrice <= sellPrice` is also false
(`tradeType = "Short"`). -/
theorem claim_C6_cex :
    tradeDirection (parseFloatL "abc".data) (parseFloatL "5".data) = "Short".data
  ∧ fallbackDirection (parseFloatL "abc".data) (parseFloatL "5".data) = 1 := by
  constructor
  · decide
  · decide

/-- Claim C6 (amended): for every row whose entry and exit prices both
parse as numbers, `tradeType` is `Long` exactly when the P/L fallback
direction is `+1` and `Short` exactly when it is `-1`; with a `NaN` price
both JS comparisons are false, so the fallback direction is `+1` while
`tradeType` is `Short`. -/
theorem claim_C6_direction_consistency :
    ∀ b e : ℚ,
      (tradeDirection (some b) (some e) = "Long".data ↔
        fallbackDirection (some b) (some e) = 1)
    ∧ (tradeDirection (some b) (some e) = "Short".data ↔
        fallbackDirection (some b) (some e) = -1) := by
  intro b e
  by_cases h : b ≤ e
  · have h1 : tradeDirection (some b) (some e) = "Long".data := by
      rw [tradeDirection, if_pos (by simp [jle, h])]
    have h2 : fallbackDirection (some b) (some e) = 1 := by
      rw [fallbackDirection, if_neg (by simp [jgt, jlt]; linarith)]
    rw [h1, h2]
    refine ⟨by simp, ?_⟩
    constructor
    · intro hc; exact absurd hc (by decide)
    · intro hc; exact absurd hc (by norm_num)
  · have h1 : tradeDirection (some b) (some e) = "Short".data := by
      rw [tradeDirection, if_neg (by simp [jle, h])]
    have h2 : fallbackDirection (some b) (some e) = -1 := by
      rw [fallbackDirection, if_pos (by simp [jgt, jlt]; linarith)]
    rw [h1, h2]
    refine ⟨?_, by simp⟩
    constructor
    · intro hc; exact absurd hc (by decide)
    · intro hc; exact absurd hc (by norm_num)

/-- Claim C10: the debug P/L override with multiplier `m` replaces
`profitLoss` of exactly the trades whose instrument contains `XAUUSD`
(case-insensitively) with
`(exitPrice - entryPrice) * (tradeType == 'Long' ? 1 : -1) * m * quantity`,
and changes nothing else: all other fields, all non-matching trades, and
the list order (positions) are unchanged. -/
theorem claim_C10_override_frame :
    ∀ (trades : List Trade) (m : ℚ),
      (overridePnl trades m).length = trades.length
    ∧ ∀ (i : Nat), i < trades.length → ∀ d : Trade,
        (overridePnl trades m).getD i d =
          (if matchesXAUUSD (trades.getD i d) then
            { trades.getD i d with
                profitLoss :=
                  jmul (jmul (jmul (jsub (trades.getD i d).exitPrice
                      (trades.getD i d).entryPrice)
                    (some (if (trades.getD i d).tradeType = "Long".data then 1 else -1)))
                    (some m)) (trades.getD i d).quantity }
          else trades.getD i d) := by
  intro trades m
  constructor
  · simp [overridePnl]
  · intro i hi d
    have hmap : (overridePnl trades m).getD i d =
        (fun t => if matchesXAUUSD t then
          { t with profitLoss := overridePnlValue t m } else t) (trades.getD i d) := by
      rw [List.getD_eq_getElem?_getD, List.getD_eq_getElem?_getD, overridePnl,
        List.getElem?_map, List.getElem?_eq_getElem hi]
      rfl
    rw [hmap]
    rfl

/-- Witness for C10: the override applied to a one-trade XAUUSD list at
index 0. -/
theorem claim_C10_witness :
    (overridePnl [c10trade] 100).getD 0 c10trade =
      (if matchesXAUUSD ([c10trade].getD 0 c10trade) then
        { [c10trade].getD 0 c10trade with
            profitLoss :=
              jmul (jmul (jmul (jsub ([c10trade].getD 0 c10trade).exitPrice
                  ([c10trade].getD 0 c10trade).entryPrice)
                (some (if ([c10trade].getD 0 c10trade).tradeType = "Long".data then 1 else -1)))
                (some 100)) ([c10trade].getD 0 c10trade).quantity }
      else [c10trade].getD 0 c10trade) :=
  (claim_C10_override_frame [c10trade] 100).2 0 (by decide) c10trade

theorem ImageSlots.get_set_same (a : ImageSlots) (s : Fin 3) (v : Option String) :
    (a.set s v).get s = v := by
  fin_cases s <;> rfl

theorem ImageSlots.get_set_other (a : ImageSlots) (s t : Fin 3) (v : Option String)
    (h : t ≠ s) : (a.set s v).get t = a.get t := by
  fin_cases s <;> fin_cases t <;> first | rfl | exact absurd rfl h

theorem ImageSlots.get_empty (s : Fin 3) : ImageSlots.empty.get s = none := by
  fin_cases s <;> rfl

theorem ImageSlots.exists_get_of_not_allNull (a : ImageSlots) (h : a.allNull = false) :
    ∃ s : Fin 3, a.get s ≠ none := by
  by_cases h0 : a.s0 = none
  · by_cases h1 : a.s1 = none
    · by_cases h2 : a.s2 = none
      · simp [ImageSlots.allNull, h0, h1, h2] at h
      · exact ⟨2, h2⟩
    · exact ⟨1, h1⟩
  · exact ⟨0, h0⟩

theorem ImageSlots.allNull_false_of_get (a : ImageSlots) (s : Fin 3)
    (h : a.get s ≠ none) : a.allNull = false := by
  by_contra hc
  have hall : a.allNull = true := by
    cases hv : a.allNull
    · exact absurd hv hc
    · rfl
  simp [ImageSlots.allNull] at hall
  apply h
  fin_cases s <;> simp [ImageSlots.get, hall.1, hall.2.1, hall.2.2]

theorem attachList_getD (L : List (Fin 3 × String)) :
    ∀ (m : ImageMap) (id : Nat) (arr : ImageSlots), m id = some arr →
      (attachList m id L) id =
        some (L.foldl (fun a p => a.set p.1 (some p.2)) arr) := by
  induction L with
  | nil => intro m id arr h; simpa [attachList]
  | cons p L ih =>
    intro m id arr h
    show (attachList (attachImage m id p.1 p.2) id L) id = _
    exact ih _ _ _ (by simp [attachImage, h])

theorem foldSet_get (L : List (Fin 3 × String)) :
    ∀ (arr : ImageSlots) (s : Fin 3),
      (s ∈ L.map Prod.fst →
        (L.foldl (fun a p => a.set p.1 (some p.2)) arr).get s ≠ none)
    ∧ (s ∉ L.map Prod.fst →
        (L.foldl (fun a p => a.set p.1 (some p.2)) arr).get s = arr.get s) := by
  induction L with
  | nil =>
    intro arr s
    exact ⟨by intro h; simp at h, fun _ => rfl⟩
  | cons p L ih =>
    intro arr s
    constructor
    · intro hs
      by_cases hmem : s ∈ L.map Prod.fst
      · exact (ih _ s).1 hmem
      · have hsp : s = p.1 := by
          rw [List.map_cons, List.mem_cons] at hs
          rcases hs with h | h
          · exact h
          · exact absurd h hmem
        have := (ih (arr.set p.1 (some p.2)) s).2 hmem
        show (L.foldl (fun a q => a.set q.1 (some q.2)) (arr.set p.1 (some p.2))).get s ≠ none
        rw [this, hsp, ImageSlots.get_set_same]
        simp
    · intro hs
      have hne : s ≠ p.1 := fun h => hs (by simp [h])
      have hmem : s ∉ L.map Prod.fst := fun h => hs (by simp [h])
      show (L.foldl (fun a q => a.set q.1 (some q.2)) (arr.set p.1 (some p.2))).get s = _
      rw [(ih _ s).2 hmem, ImageSlots.get_set_other _ _ _ _ hne]

theorem removeImage_absent (m : ImageMap) (id : Nat) (s : Fin 3) (h : m id = none) :
    removeImage m id s = m := by
  rw [removeImage, h]

theorem removeImage_present (m : ImageMap) (id : Nat) (s : Fin 3) (arr : ImageSlots)
    (h : m id = some arr) :
    removeImage m id s =
      if (arr.set s none).allNull = true then (fun k => if k = id then none else m k)
      else (fun k => if k = id then some (arr.set s none) else m k) := by
  rw [removeImage, h]

theorem detachList_stays_absent (S : List (Fin 3)) :
    ∀ (m : ImageMap) (id : Nat), m id = none → (detachList m id S) id = none := by
  induction S with
  | nil => intro m id h; exact h
  | cons s S ih =>
    intro m id h
    show (detachList (removeImage m id s) id S) id = none
    rw [removeImage_absent m id s h]
    exact ih m id h

theorem detachList_clears (S : List (Fin 3)) :
    ∀ (m : ImageMap) (id : Nat) (arr : ImageSlots),
      m id = some arr → arr.allNull = false →
      (∀ s : Fin 3, arr.get s ≠ none → s ∈ S) →
      (detachList m id S) id = none := by
  induction S with
  | nil =>
    intro m id arr h hfull hcov
    obtain ⟨s, hs⟩ := ImageSlots.exists_get_of_not_allNull arr hfull
    exact absurd (hcov s hs) (by simp)
  | cons s S ih =>
    intro m id arr h hfull hcov
    show (detachList (removeImage m id s) id S) id = none
    rw [removeImage_present m id s arr h]
    by_cases hn : (arr.set s none).allNull
    · rw [if_pos hn]
      exact detachList_stays_absent S _ id (by simp)
    · rw [if_neg hn]
      refine ih _ id (arr.set s none) (by simp) (by simpa using hn) ?_
      intro t ht
      by_cases hts : t = s
      · rw [hts, ImageSlots.get_set_same] at ht
        exact absurd rfl ht
      · rw [ImageSlots.get_set_other _ _ _ _ hts] at ht
        rcases List.mem_cons.mp (hcov t ht) with hmem | hmem
        · exact absurd hmem hts
        · exact hmem

/-- Claim C9: `removeImage` clears the slot, and deletes the trade's entry
from the image map exactly when all three slots are then null;
consequently, attaching images to any set of a trade's slots and then
detaching every attached slot leaves the image map without that trade's
key. -/
theorem claim_C9_detach_deletes_entry :
    (∀ (m : ImageMap) (id : Nat) (slot : Fin 3) (arr : ImageSlots),
        m id = some arr →
          ((removeImage m id slot) id = none ↔ (arr.set slot none).allNull = true)
        ∧ ((arr.set slot none).allNull = false →
            (removeImage m id slot) id = some (arr.set slot none))
        ∧ (∀ arr', (removeImage m id slot) id = some arr' → arr'.get slot = none))
  ∧ (∀ (m : ImageMap) (id : Nat) (L : List (Fin 3 × String)),
        m id = none →
          (detachList (attachList m id L) id (L.map Prod.fst)) id = none) := by
  constructor
  · intro m id slot arr h
    rw [removeImage_present m id slot arr h]
    by_cases hn : (arr.set slot none).allNull
    · rw [if_pos hn]
      refine ⟨by simp [hn], fun hf => absurd hn (by simp [hf]), ?_⟩
      intro arr' harr'
      simp at harr'
    · rw [if_neg hn]
      refine ⟨by simp [hn], fun _ => by simp, ?_⟩
      intro arr' harr'
      simp only [if_pos] at harr'
      have harr : arr' = arr.set slot none := by
        simpa using harr'.symm
      rw [harr, ImageSlots.get_set_same]
  · intro m id L h
    match L with
    | [] => exact detachList_stays_absent [] m id h
    | p :: L' =>
      have hattach : (attachList m id (p :: L')) id =
          some ((p :: L').foldl (fun a q => a.set q.1 (some q.2)) ImageSlots.empty) := by
        show (attachList (attachImage m id p.1 p.2) id L') id = _
        exact attachList_getD L' _ id _ (by simp [attachImage, h])
      set A := (p :: L').foldl (fun a q => a.set q.1 (some q.2)) ImageSlots.empty with hA
      have hget : A.get p.1 ≠ none := (foldSet_get (p :: L') ImageSlots.empty p.1).1 (by simp)
      refine detachList_clears _ _ id A hattach
        (ImageSlots.allNull_false_of_get A p.1 hget) ?_
      intro s hs
      by_contra hmem
      rw [(foldSet_get (p :: L') ImageSlots.empty s).2 hmem, ImageSlots.get_empty] at hs
      exact hs rfl

/-- Witness for C9: attach images to slots 0 and 2 of trade 5 in an empty
map, then detach both; the key is gone. -/
theorem claim_C9_witness :
    (detachList
      (attachList (fun _ => none) 5 [((0 : Fin 3), "a"), ((2 : Fin 3), "b")]) 5
      ([((0 : Fin 3), "a"), ((2 : Fin 3), "b")].map Prod.fst)) 5 = none :=
  claim_C9_detach_deletes_entry.2 (fun _ => none) 5
    [((0 : Fin 3), "a"), ((2 : Fin 3), "b")] rfl

theorem foldl_insertKey_of_nodup (hs : List Str) :
    ∀ acc : List Str, (acc ++ hs.map toLowerL).Nodup →
      hs.foldl (fun ks h => insertKey ks (toLowerL h)) acc = acc ++ hs.map toLowerL := by
  induction hs with
  | nil => intro acc _; simp
  | cons hd tl ih =>
    intro acc hnd
    show tl.foldl _ (insertKey acc (toLowerL hd)) = _
    have hnotmem : toLowerL hd ∉ acc := by
      rw [List.map_cons, List.nodup_append] at hnd
      intro hmem
      exact hnd.2.2 hmem (List.mem_cons_self _ _)
    rw [insertKey, if_neg hnotmem]
    have hnd' : ((acc ++ [toLowerL hd]) ++ tl.map toLowerL).Nodup := by
      simpa [List.append_assoc] using hnd
    rw [ih (acc ++ [toLowerL hd]) hnd']
    simp [List.append_assoc]

theorem objKeys_of_nodup (headers : List Str) (h : (headers.map toLowerL).Nodup) :
    objKeys headers = headers.map toLowerL := by
  simpa [objKeys] using foldl_insertKey_of_nodup headers [] (by simpa)

theorem findIndexL_eq_of_unique (p : Str → Bool) (l : List Str) (j : Nat)
    (hj : j < l.length) (hpj : p (l.get ⟨j, hj⟩) = true)
    (huniq : ∀ k (hk : k < l.length), p (l.get ⟨k, hk⟩) = true → k = j) :
    findIndexL p l = (j : Int) := by
  induction l generalizing j with
  | nil => exact absurd hj (by simp)
  | cons a as ih =>
    match j with
    | 0 =>
      have hpa : p a = true := hpj
      simp [findIndexL, hpa]
    | j' + 1 =>
      have hpa : p a = false := by
        cases hv : p a
        · rfl
        · exact absurd (huniq 0 (by simp) hv) (by simp)
      have hj' : j' < as.length := by simpa using hj
      have hpj' : p (as.get ⟨j', hj'⟩) = true := hpj
      have huniq' : ∀ k (hk : k < as.length), p (as.get ⟨k, hk⟩) = true → k = j' := by
        intro k hk hpk
        have hks : k + 1 = j' + 1 := huniq (k + 1) (by simpa using hk) hpk
        omega
      have hrec := ih j' hj' hpj' huniq'
      have hne : findIndexL p as ≠ -1 := by
        rw [hrec]; omega
      rw [findIndexL]
      rw [if_neg (by simp [hpa]), if_neg hne, hrec]
      push_cast
      ring

theorem objKeys_map_recase (headers : List Str) (g : Str → Str)
    (hg : ∀ h, toLowerL (g h) = toLowerL h) :
    objKeys (headers.map g) = objKeys headers := by
  rw [objKeys, objKeys, List.foldl_map]
  have hfun : (fun (ks : List Str) h => insertKey ks (toLowerL (g h))) =
      (fun (ks : List Str) h => insertKey ks (toLowerL h)) := by
    funext ks h
    rw [hg]
  rw [hfun]

/-- Claim C4: header resolution is case-insensitive and order-independent:
when the lower-cased header names are pairwise distinct and exactly one
header contains a required logical column name, `getColumnIndex` resolves
that name to the index of its matching header column (wherever it sits),
and the resolution is invariant under any per-header change of letter
casing. -/
theorem claim_C4_header_resolution :
    (∀ (headers : List Str) (name : Str) (j : Nat) (hj : j < headers.length),
        (headers.map toLowerL).Nodup →
        containsSub (toLowerL name) (toLowerL (headers.get ⟨j, hj⟩)) = true →
        (∀ k (hk : k < headers.length),
          containsSub (toLowerL name) (toLowerL (headers.get ⟨k, hk⟩)) = true → k = j) →
        getColumnIndex headers name = (j : Int))
  ∧ (∀ (headers : List Str) (name : Str) (g : Str → Str),
        (∀ h, toLowerL (g h) = toLowerL h) →
        getColumnIndex (headers.map g) name = getColumnIndex headers name) := by
  constructor
  · intro headers name j hj hnd hpj huniq
    rw [getColumnIndex, objKeys_of_nodup headers hnd]
    have hj2 : j < (headers.map toLowerL).length := by simpa using hj
    apply findIndexL_eq_of_unique _ _ j hj2
    · simp only [List.get_eq_getElem, List.getElem_map]
      exact hpj
    · intro k hk hpk
      simp only [List.get_eq_getElem, List.getElem_map] at hpk
      exact huniq k (by simpa using hk) hpk
  · intro headers name g hg
    rw [getColumnIndex, getColumnIndex, objKeys_map_recase headers g hg]

/-- Witness for C4: in a header row with mixed casing and `PnL` first, the
`pnl` column resolves to index 0. -/
theorem claim_C4_witness : getColumnIndex c4headers "pnl".data = ((0 : Nat) : Int) :=
  claim_C4_header_resolution.1 c4headers "pnl".data 0 (by decide) (by decide)
    (by decide) (by decide)

theorem parseRow_isSome (now : Int) (c : ColIdx) (i : Nat) (line : Str) :
    (parseRow now c i line).isSome = survivesRow c line := by
  rw [parseRow, survivesRow]
  by_cases h1 : trimL line = []
  · rw [if_pos h1, if_pos h1]
    rfl
  · rw [if_neg h1, if_neg h1]
    by_cases h2 : ((splitFields line).map trimL).length < maxNeeded c + 1
    · rw [if_pos h2, if_pos h2]
      rfl
    · rw [if_neg h2, if_neg h2]
      rfl

theorem rowsLoop_eq_nil_iff (now : Int) (c : ColIdx) (ls : List Str) :
    ∀ i : Nat, (rowsLoop now c i ls = [] ↔ ls.filter (survivesRow c) = []) := by
  induction ls with
  | nil => intro i; simp [rowsLoop]
  | cons l ls ih =>
    intro i
    rw [List.filter_cons]
    cases hp : parseRow now c i l with
    | some t =>
      have hs : survivesRow c l = true := by
        rw [← parseRow_isSome now c i l, hp]
        rfl
      rw [hs]
      simp only [rowsLoop, hp]
      simp
    | none =>
      have hs : survivesRow c l = false := by
        rw [← parseRow_isSome now c i l, hp]
        rfl
      rw [hs]
      simp only [rowsLoop, hp]
      simpa using ih (i + 1)

/-- Claim C5: the normalizer aborts as a whole exactly when a header-level
failure occurs — fewer than 2 lines, a required logical column with no
matching header, or zero rows surviving row-level recovery; row-level
failures never abort the operation. -/
theorem claim_C5_abort_iff_header_failure :
    ∀ (now : Int) (input : Str),
      (∃ e, parseCSV now input = .error e) ↔
        ((linesOf input).length < 2 ∨ missingColumns (headersOf input) ≠ [] ∨
          survivingCount input = 0) := by
  intro now input
  rw [parseCSV]
  by_cases h1 : (linesOf input).length < 2
  · rw [if_pos h1]
    simp [h1]
  · rw [if_neg h1]
    by_cases h2 : missingColumns (headersOf input) ≠ []
    · rw [if_pos h2]
      simp [h1, h2]
    · rw [if_neg h2]
      by_cases h3 : rawTrades now input = []
      · rw [if_pos h3]
        have hsc : survivingCount input = 0 := by
          rw [survivingCount, List.length_eq_zero]
          exact (rowsLoop_eq_nil_iff now (resolveCols (headersOf input))
            ((linesOf input).drop 1) 1).mp h3
        simp [hsc]
      · rw [if_neg h3]
        have hsc : survivingCount input ≠ 0 := by
          rw [survivingCount]
          intro hc
          exact h3 ((rowsLoop_eq_nil_iff now (resolveCols (headersOf input))
            ((linesOf input).drop 1) 1).mpr (List.length_eq_zero.mp hc))
        simp [h1, h2, hsc]

/-- Claim C7: a row whose entry or exit timestamp is unparseable is
neither dropped nor failed: it yields a trade whose entry time is the
current time and whose exit time is entry + 1 hour (3600000 ms). -/
theorem claim_C7_timestamp_substitution :
    ∀ (now : Int) (c : ColIdx) (i : Nat) (line : Str),
      trimL line ≠ [] →
      maxNeeded c + 1 ≤ ((splitFields line).map trimL).length →
      (parseDate (((splitFields line).map trimL).getD c.buyTimeCol []) = none ∨
        parseDate (((splitFields line).map trimL).getD c.sellTimeCol []) = none) →
      ∃ t : Trade, parseRow now c i line = some t ∧
        t.entryTime = now ∧ t.exitTime = now + 3600000 := by
  intro now c i line h1 h2 h3
  rw [parseRow, if_neg h1, if_neg (by omega)]
  cases hb : parseDate (((splitFields line).map trimL).getD c.buyTimeCol []) with
  | none =>
    cases hs : parseDate (((splitFields line).map trimL).getD c.sellTimeCol []) with
    | none => exact ⟨_, rfl, rfl, rfl⟩
    | some st => exact ⟨_, rfl, rfl, rfl⟩
  | some bt =>
    cases hs : parseDate (((splitFields line).map trimL).getD c.sellTimeCol []) with
    | none => exact ⟨_, rfl, rfl, rfl⟩
    | some st =>
      rcases h3 with h3 | h3
      · exact absurd hb (by rw [h3]; simp)
      · exact absurd hs (by rw [h3]; simp)

/-- Witness for C7: a seven-field row with a bad entry timestamp becomes a
trade timed at the supplied current time 99. -/
theorem claim_C7_witness :
    ∃ t : Trade, parseRow 99 c7cols 1 c7line = some t ∧
      t.entryTime = 99 ∧ t.exitTime = 99 + 3600000 :=
  claim_C7_timestamp_substitution 99 c7cols 1 c7line (by decide) (by decide)
    (Or.inl (by decide))

theorem mem_insertT (z x : Trade) (l : List Trade) :
    z ∈ insertT x l ↔ z = x ∨ z ∈ l := by
  induction l with
  | nil => simp [insertT]
  | cons y ys ih =>
    rw [insertT]
    by_cases hc : x.entryTime < y.entryTime
    · rw [if_pos hc]
      simp [ih]
      tauto
    · rw [if_neg hc]
      simp

theorem pairwise_insertT (x : Trade) (l : List Trade)
    (h : l.Pairwise (fun a b => b.entryTime ≤ a.entryTime)) :
    (insertT x l).Pairwise (fun a b => b.entryTime ≤ a.entryTime) := by
  induction l with
  | nil => simp [insertT]
  | cons y ys ih =>
    rw [insertT]
    rw [List.pairwise_cons] at h
    by_cases hc : x.entryTime < y.entryTime
    · rw [if_pos hc]
      rw [List.pairwise_cons]
      refine ⟨?_, ih h.2⟩
      intro z hz
      rcases (mem_insertT z x ys).mp hz with rfl | hz'
      · exact le_of_lt hc
      · exact h.1 z hz'
    · rw [if_neg hc]
      push_neg at hc
      rw [List.pairwise_cons]
      constructor
      · intro z hz
        rcases List.mem_cons.mp hz with rfl | hz'
        · exact hc
        · exact le_trans (h.1 z hz') hc
      · rw [List.pairwise_cons]
        exact h

theorem sortTrades_pairwise (l : List Trade) :
    (sortTrades l).Pairwise (fun a b => b.entryTime ≤ a.entryTime) := by
  induction l with
  | nil => simp [sortTrades]
  | cons x xs ih => exact pairwise_insertT x _ ih

theorem filter_insertT (x : Trade) (l : List Trade) (v : Int) :
    (insertT x l).filter (fun t => decide (t.entryTime = v)) =
      if x.entryTime = v then x :: l.filter (fun t => decide (t.entryTime = v))
      else l.filter (fun t => decide (t.entryTime = v)) := by
  induction l with
  | nil =>
    by_cases hx : x.entryTime = v <;> simp [insertT, hx]
  | cons y ys ih =>
    rw [insertT]
    by_cases hc : x.entryTime < y.entryTime
    · rw [if_pos hc]
      by_cases hy : y.entryTime = v
      · by_cases hx : x.entryTime = v
        · exact absurd hc (by rw [hx, hy]; omega)
        · simp [List.filter_cons, hy, hx, ih]
      · simp [List.filter_cons, hy, ih]
    · rw [if_neg hc]
      by_cases hx : x.entryTime = v <;> by_cases hy : y.entryTime = v <;>
        simp [List.filter_cons, hx, hy]

theorem sortTrades_filter (l : List Trade) (v : Int) :
    (sortTrades l).filter (fun t => decide (t.entryTime = v)) =
      l.filter (fun t => decide (t.entryTime = v)) := by
  induction l with
  | nil => rfl
  | cons x xs ih =>
    show (insertT x (sortTrades xs)).filter _ = _
    rw [filter_insertT, ih, List.filter_cons]
    by_cases hx : x.entryTime = v <;> simp [hx]

/-- Claim C8: the normalized result is sorted by `entryTime` descending,
and rows with equal `entryTime` keep their input order: filtering the
output at any fixed `entryTime` gives exactly the input-order rows of the
unsorted trade list at that time. -/
theorem claim_C8_sorted_stable :
    ∀ (now : Int) (input : Str) (ts : List Trade),
      parseCSV now input = .ok ts →
        ts.Pairwise (fun a b => b.entryTime ≤ a.entryTime)
      ∧ ∀ v : Int, ts.filter (fun t => decide (t.entryTime = v)) =
          (rawTrades now input).filter (fun t => decide (t.entryTime = v)) := by
  intro now input ts h
  have hts : ts = sortTrades (rawTrades now input) := by
    rw [parseCSV] at h
    by_cases h1 : (linesOf input).length < 2
    · rw [if_pos h1] at h
      simp at h
    · rw [if_neg h1] at h
      by_cases h2 : missingColumns (headersOf input) ≠ []
      · rw [if_pos h2] at h
        simp at h
      · rw [if_neg h2] at h
        by_cases h3 : rawTrades now input = []
        · rw [if_pos h3] at h
          simp at h
        · rw [if_neg h3] at h
          simpa using h.symm
  subst hts
  exact ⟨sortTrades_pairwise _, fun v => sortTrades_filter _ v⟩

/-- Witness for C8: the three-row CSV with a duplicated entry time. -/
theorem claim_C8_witness :
    c8trades.Pairwise (fun a b : Trade => b.entryTime ≤ a.entryTime)
  ∧ ∀ v : Int, c8trades.filter (fun t => decide (t.entryTime = v)) =
      (rawTrades 0 c8input).filter (fun t => decide (t.entryTime = v)) :=
  claim_C8_sorted_stable 0 c8input c8trades rfl

end TradeJournal
